import Mathlib

/-!
Verification of the tic-tac-toe-three-symbols session server.

The repository contains two variants of the server:
* `src/server.js` — the simple variant: board, `currentPlayer`, per-player
  `moves` lists, a `removedStack` with an `undo` handler, and an unconditional
  `resetGame`.  Join assigns `"X"` to the first connection of a room and `"O"`
  to everyone else.
* `src/unnamed/part_000` — the hardened variant: roles (X/O/spectator),
  game status, win/draw detection, scores, rematch, rate limiting, a move
  timer with timeout forfeit, and room cleanup on disconnect.

Both are embedded below as pure functions over explicit state values.
JavaScript arrays are `List`s; `board[i]` on an out-of-range index yields
`undefined`, modelled as `none` from an `Option`-valued lookup (`jsGet`).
Timestamps (`Date.now()`) are threaded as explicit `Int` parameters.
-/

/-- A competitive participant: `"X"` or `"O"` in the JS sources. -/
inductive Player
  | X
  | O
deriving DecidableEq

/-- `player === "X" ? "O" : "X"` — the turn flip used by both variants. -/
def other : Player → Player
  | .X => .O
  | .O => .X

/-- One board cell: the empty string `""` or a player's symbol. -/
inductive Cell
  | empty
  | mark (p : Player)
deriving DecidableEq

/-- JS array read `board[i]`: `none` models `undefined` (out-of-range or
negative index), `some c` an actual cell value. -/
def jsGet (b : List Cell) (i : Int) : Option Cell :=
  if 0 ≤ i then b[i.toNat]? else none

/-- JS array write `board[i] = v` as it is used by the handlers: every write
in the sources happens after a check that guarantees `0 ≤ i < 9`, so the
out-of-range case (which JS would turn into a plain property write) leaves
the list unchanged. -/
def jsSet (b : List Cell) (i : Int) (v : Cell) : List Cell :=
  if 0 ≤ i then b.set i.toNat v else b

/-- `CONFIG.MAX_SYMBOLS` (the symbol cap; the simple variant hard-codes the
same literal `3` in its cap check). -/
def MAX_SYMBOLS : Nat := 3

/-! ## Simple variant (`src/server.js`) -/

/-- Game state of the simple variant: `{board, currentPlayer, moves: {X, O},
removedStack}`.  The `removedStack` is kept most-recent-first, matching JS
`push`/`pop` which operate on the array end. -/
structure SGame where
  board : List Cell
  currentPlayer : Player
  movesX : List Int
  movesO : List Int
  removedStack : List (Player × Int)
deriving DecidableEq

/-- `game.moves[player]` for the simple variant. -/
def smoves (g : SGame) : Player → List Int
  | .X => g.movesX
  | .O => g.movesO

/-- `game.moves[player] = l` for the simple variant. -/
def ssetMoves (g : SGame) : Player → List Int → SGame
  | .X, l => { g with movesX := l }
  | .O, l => { g with movesO := l }

/-- The fresh game object built in `joinGame` and `resetGame`. -/
def initialSGame : SGame :=
  { board := List.replicate 9 .empty
    currentPlayer := .X
    movesX := []
    movesO := []
    removedStack := [] }

/-- The `makeMove` handler of the simple variant; `none` is a silent
rejection (`return` before any mutation).  Checks, in source order:
`player !== game.currentPlayer`, `game.moves[player].length >= 3`,
`game.board[index] !== ""`; then marks the cell, appends to the player's
moves and flips `currentPlayer`. -/
def makeMoveS (g : SGame) (player : Player) (index : Int) : Option SGame :=
  if player ≠ g.currentPlayer then none
  else if 3 ≤ (smoves g player).length then none
  else if jsGet g.board index ≠ some .empty then none
  else
    let g1 := ssetMoves { g with board := jsSet g.board index (.mark player) }
      player (smoves g player ++ [index])
    some { g1 with currentPlayer := other player }

/-- The `removeSymbol` handler of the simple variant: only the ownership
check `game.board[index] === player` guards it (no turn check); on success
it clears the cell, filters the index out of the player's moves and pushes
onto `removedStack`.  It does not touch `currentPlayer`. -/
def removeSymbolS (g : SGame) (player : Player) (index : Int) : Option SGame :=
  if jsGet g.board index = some (.mark player) then
    some (ssetMoves { g with board := jsSet g.board index .empty
                             removedStack := (player, index) :: g.removedStack }
          player ((smoves g player).filter (· ≠ index)))
  else none

/-- The `undo` handler of the simple variant: pops the removed stack and
unconditionally re-places that symbol (no occupancy or cap re-check). -/
def undoS (g : SGame) : Option SGame :=
  match g.removedStack with
  | [] => none
  | (player, index) :: rest =>
    let g1 := { g with removedStack := rest
                       board := jsSet g.board index (.mark player) }
    some (ssetMoves g1 player (smoves g1 player ++ [index]))

/-- Member map of a room in the simple variant: `players[roomId]` maps a
socket id to `"X"` or `"O"`.  Kept as an association list in insertion
order (JS object key order for these string keys). -/
def lookupS (m : List (Nat × Player)) (c : Nat) : Option Player :=
  (m.find? (fun e => e.1 == c)).map (·.2)

/-- Role assignment inside the simple variant's `joinGame`: a connection
that already has a symbol keeps it; otherwise
`Object.values(players[roomId]).includes("X") ? "O" : "X"`. -/
def joinAssignS (m : List (Nat × Player)) (c : Nat) : List (Nat × Player) × Player :=
  match lookupS m c with
  | some p => (m, p)
  | none =>
    let assigned := if (m.map (·.2)).contains Player.X then Player.O else Player.X
    (m ++ [(c, assigned)], assigned)

/-- States of the simple variant reachable from a fresh game by accepted
`makeMove`, `removeSymbol`, `undo` and `resetGame` handler calls. -/
inductive SReach : SGame → Prop
  | init : SReach initialSGame
  | place (g : SGame) (p : Player) (i : Int) (g2 : SGame) :
      SReach g → makeMoveS g p i = some g2 → SReach g2
  | withdraw (g : SGame) (p : Player) (i : Int) (g2 : SGame) :
      SReach g → removeSymbolS g p i = some g2 → SReach g2
  | unplace (g g2 : SGame) : SReach g → undoS g = some g2 → SReach g2
  | reset (g : SGame) : SReach g → SReach initialSGame

/-- Reachability when the `undo` handler is never used. -/
inductive SReachNoUndo : SGame → Prop
  | init : SReachNoUndo initialSGame
  | place (g : SGame) (p : Player) (i : Int) (g2 : SGame) :
      SReachNoUndo g → makeMoveS g p i = some g2 → SReachNoUndo g2
  | withdraw (g : SGame) (p : Player) (i : Int) (g2 : SGame) :
      SReachNoUndo g → removeSymbolS g p i = some g2 → SReachNoUndo g2
  | reset (g : SGame) : SReachNoUndo g → SReachNoUndo initialSGame

/-! ## Hardened variant (`src/unnamed/part_000`) -/

/-- Member role in the hardened variant: `"X"`, `"O"` or `"spectator"`. -/
inductive Role
  | rx
  | ro
  | spectator
deriving DecidableEq

/-- The player a role plays as, if any. -/
def Role.player : Role → Option Player
  | .rx => some .X
  | .ro => some .O
  | .spectator => none

/-- `game.gameStatus`: `"waiting" | "playing" | "finished"`. -/
inductive Status
  | waiting
  | playing
  | finished
deriving DecidableEq

/-- `game.winner`: a player or `"draw"` (`null` is `Option.none` outside). -/
inductive GWinner
  | player (p : Player)
  | draw
deriving DecidableEq

/-- `game.scores = {X, O, draws}`. -/
structure Scores where
  x : Nat
  o : Nat
  draws : Nat
deriving DecidableEq

/-- `scores[p]`. -/
def scoreOf (s : Scores) : Player → Nat
  | .X => s.x
  | .O => s.o

/-- `scores[p]++`. -/
def bumpScore (s : Scores) : Player → Scores
  | .X => { s with x := s.x + 1 }
  | .O => { s with o := s.o + 1 }

/-- `moveHistory` entry type tag: `"place"` or `"remove"`. -/
inductive HistType
  | place
  | withdraw
deriving DecidableEq

/-- A `moveHistory` entry `{type, player, index, timestamp}`. -/
structure HistEntry where
  htype : HistType
  player : Player
  index : Int
  timestamp : Int
deriving DecidableEq

/-- Game state of the hardened variant, one field per property built by
`createGame()`. -/
structure HGame where
  board : List Cell
  currentPlayer : Player
  movesX : List Int
  movesO : List Int
  moveHistory : List HistEntry
  winner : Option GWinner
  winningLine : Option (List Nat)
  gameStatus : Status
  createdAt : Int
  lastActivity : Int
  turnStartTime : Option Int
  scores : Scores
deriving DecidableEq

/-- `game.moves[player]` for the hardened variant. -/
def hmoves (g : HGame) : Player → List Int
  | .X => g.movesX
  | .O => g.movesO

/-- `game.moves[player] = l` for the hardened variant. -/
def hsetMoves (g : HGame) : Player → List Int → HGame
  | .X, l => { g with movesX := l }
  | .O, l => { g with movesO := l }

/-- `createGame()` with `Date.now()` passed in as `now`. -/
def createGame (now : Int) : HGame :=
  { board := List.replicate 9 .empty
    currentPlayer := .X
    movesX := []
    movesO := []
    moveHistory := []
    winner := none
    winningLine := none
    gameStatus := .waiting
    createdAt := now
    lastActivity := now
    turnStartTime := none
    scores := ⟨0, 0, 0⟩ }

/-- The eight fixed win lines of `checkWinner`, in source order. -/
def winLines : List (Nat × Nat × Nat) :=
  [(0, 1, 2), (3, 4, 5), (6, 7, 8),
   (0, 3, 6), (1, 4, 7), (2, 5, 8),
   (0, 4, 8), (2, 4, 6)]

/-- `board[a] && board[a] === board[b] && board[a] === board[c]` for one
line: the owner of a completed line, if any. -/
def lineOwner (b : List Cell) : Nat × Nat × Nat → Option Player
  | (i, j, k) =>
    match b[i]? with
    | some (Cell.mark p) =>
      if b[j]? = some (Cell.mark p) ∧ b[k]? = some (Cell.mark p) then some p else none
    | _ => none

/-- `checkWinner(board)`: first completed line in enumeration order wins;
otherwise a fully occupied board is a draw; otherwise no result yet. -/
def checkWinner (b : List Cell) : Option (GWinner × Option (List Nat)) :=
  match winLines.findSome? (fun l => (lineOwner b l).map (fun p => (p, l))) with
  | some (p, (i, j, k)) => some (.player p, some [i, j, k])
  | none =>
    if b.all (fun cell => cell ≠ .empty) then some (.draw, none) else none

/-- The scoped error notifications of the hardened variant (one constructor
per distinct rejection message). -/
inductive MoveError
  | RateLimited
  | RoomNotFound
  | SpectatorForbidden
  | GameNotActive
  | NotYourTurn
  | SymbolCapReached
  | InvalidCellIndex
  | CellOccupied
  | CannotRemoveForeignSymbol
deriving DecidableEq

instance {ε α : Type} [DecidableEq ε] [DecidableEq α] : DecidableEq (Except ε α) :=
  fun a b =>
    match a, b with
    | .ok x, .ok y =>
      if h : x = y then isTrue (by rw [h]) else isFalse (fun he => h (by injection he))
    | .error e1, .error e2 =>
      if h : e1 = e2 then isTrue (by rw [h]) else isFalse (fun he => h (by injection he))
    | .ok _, .error _ => isFalse (fun he => Except.noConfusion he)
    | .error _, .ok _ => isFalse (fun he => Except.noConfusion he)

/-- The game-level part of the hardened `makeMove` handler, after room
lookup: validations in source order (spectator, status, turn, symbol cap,
index bounds, occupancy), then the mutation: mark cell, push moves and
history, set `lastActivity`, then either finish the game on a
`checkWinner` result (recording winner/line and bumping scores) or flip
`currentPlayer` and restart the move timer (which records
`turnStartTime = Date.now()`). -/
def makeMoveGame (g : HGame) (role : Option Role) (index now : Int) :
    Except MoveError HGame :=
  match role with
  | none => .error .SpectatorForbidden
  | some ρ =>
    match ρ.player with
    | none => .error .SpectatorForbidden
    | some player =>
      if g.gameStatus ≠ .playing then .error .GameNotActive
      else if player ≠ g.currentPlayer then .error .NotYourTurn
      else if MAX_SYMBOLS ≤ (hmoves g player).length then .error .SymbolCapReached
      else if index < 0 ∨ 8 < index then .error .InvalidCellIndex
      else if jsGet g.board index ≠ some .empty then .error .CellOccupied
      else
        let board2 := jsSet g.board index (.mark player)
        let g1 := hsetMoves
          { g with board := board2
                   moveHistory := g.moveHistory ++ [⟨.place, player, index, now⟩]
                   lastActivity := now }
          player (hmoves g player ++ [index])
        match checkWinner board2 with
        | some (w, line) =>
          .ok { g1 with winner := some w
                        winningLine := line
                        gameStatus := .finished
                        scores := match w with
                          | .player p => bumpScore g1.scores p
                          | .draw => { g1.scores with draws := g1.scores.draws + 1 } }
        | none =>
          .ok { g1 with currentPlayer := other player, turnStartTime := some now }

/-- The game-level part of the hardened `removeSymbol` handler: validations
in source order (spectator, status, turn, ownership `board[index] ===
player` — note there is no bounds check), then clear the cell, filter the
index out of the player's moves, push history, set `lastActivity`, flip
`currentPlayer` and restart the move timer. -/
def removeSymbolGame (g : HGame) (role : Option Role) (index now : Int) :
    Except MoveError HGame :=
  match role with
  | none => .error .SpectatorForbidden
  | some ρ =>
    match ρ.player with
    | none => .error .SpectatorForbidden
    | some player =>
      if g.gameStatus ≠ .playing then .error .GameNotActive
      else if player ≠ g.currentPlayer then .error .NotYourTurn
      else if jsGet g.board index ≠ some (.mark player) then
        .error .CannotRemoveForeignSymbol
      else
        let g1 := hsetMoves
          { g with board := jsSet g.board index .empty
                   moveHistory := g.moveHistory ++ [⟨.withdraw, player, index, now⟩]
                   lastActivity := now }
          player ((hmoves g player).filter (· ≠ index))
        .ok { g1 with currentPlayer := other player, turnStartTime := some now }

/-- A room of the hardened variant: its game plus the member map
`players.get(roomId)` (socket id to member role, insertion order). -/
structure HRoom where
  game : HGame
  members : List (Nat × Role)
deriving DecidableEq

/-- `roomPlayers[socket.id]?.role`. -/
def lookupRole (m : List (Nat × Role)) (c : Nat) : Option Role :=
  (m.find? (fun e => e.1 == c)).map (·.2)

/-- Count of non-spectator members, as in `getRoomStats`. -/
def nonSpectatorCount (m : List (Nat × Role)) : Nat :=
  (m.filter (fun e => e.2 ≠ Role.spectator)).length

/-- The role computation of the hardened `joinGame` handler for a new
member: the first free role among X and O, else spectator. -/
def freshRole (existingRoles : List Role) : Role :=
  if ¬ existingRoles.contains Role.rx then Role.rx
  else if ¬ existingRoles.contains Role.ro then Role.ro
  else Role.spectator

/-- The hardened `joinGame` handler for one room (`none` = room absent from
the `games` map): creates a fresh game if needed, keeps an existing
member's role, otherwise assigns `freshRole`, appends the member, and when
exactly one member existed before and the new role is not spectator sets
the game playing and starts the move timer (recording `turnStartTime`).
Returns the updated room and the requester's role. -/
def handleJoin (room : Option HRoom) (c : Nat) (now : Int) : HRoom × Role :=
  let r := room.getD ⟨createGame now, []⟩
  match lookupRole r.members c with
  | some ρ => (r, ρ)
  | none =>
    let existingRoles := r.members.map (·.2)
    let ρ := freshRole existingRoles
    let members2 := r.members ++ [(c, ρ)]
    let game2 := if existingRoles.length = 1 ∧ ρ ≠ Role.spectator
                 then { r.game with gameStatus := .playing, turnStartTime := some now }
                 else r.game
    (⟨game2, members2⟩, ρ)

/-- The hardened `makeMove` handler for one room.  `rlAllowed` is the
verdict of `checkRateLimit(socket.id)` for this request.  On any rejection
the room is returned unchanged together with the scoped error; `none` in
the error slot means no error was emitted. -/
def handleMakeMove (room : Option HRoom) (c : Nat) (index now : Int)
    (rlAllowed : Bool) : Option HRoom × Option MoveError :=
  if rlAllowed = false then (room, some .RateLimited)
  else
    match room with
    | none => (none, some .RoomNotFound)
    | some r =>
      match makeMoveGame r.game (lookupRole r.members c) index now with
      | .error e => (some r, some e)
      | .ok g2 => (some ⟨g2, r.members⟩, none)

/-- The hardened `removeSymbol` handler for one room (missing room is a
silent return in the source, hence no error in that case). -/
def handleRemoveSymbol (room : Option HRoom) (c : Nat) (index now : Int)
    (rlAllowed : Bool) : Option HRoom × Option MoveError :=
  if rlAllowed = false then (room, some .RateLimited)
  else
    match room with
    | none => (none, none)
    | some r =>
      match removeSymbolGame r.game (lookupRole r.members c) index now with
      | .error e => (some r, some e)
      | .ok g2 => (some ⟨g2, r.members⟩, none)

/-- The hardened `rematch` handler: accepted only for a known non-spectator
member; replaces the game with `createGame()` carrying over `scores`, sets
it playing and starts the move timer.  The boolean reports acceptance. -/
def handleRematch (room : Option HRoom) (c : Nat) (now : Int) :
    Option HRoom × Bool :=
  match room with
  | none => (none, false)
  | some r =>
    match lookupRole r.members c with
    | none => (some r, false)
    | some .spectator => (some r, false)
    | some _ =>
      (some ⟨{ createGame now with scores := r.game.scores
                                   gameStatus := .playing
                                   turnStartTime := some now },
             r.members⟩, true)

/-- The hardened `disconnect` handler for one room: removes the member;
an emptied room is cleaned up (`none`); otherwise, when an active (non
spectator) player left, the game is set back to `"waiting"`. -/
def handleDisconnect (room : Option HRoom) (c : Nat) : Option HRoom :=
  match room with
  | none => none
  | some r =>
    match lookupRole r.members c with
    | none => some r
    | some ρ =>
      let members2 := r.members.filter (fun e => e.1 ≠ c)
      if members2.isEmpty then none
      else if ρ ≠ Role.spectator then
        some ⟨{ r.game with gameStatus := .waiting }, members2⟩
      else some ⟨r.game, members2⟩

/-- The move-timer callback of `startMoveTimer` at the moment it fires: it
re-fetches the room's live game and returns unchanged state unless the
game still exists and is still `"playing"`; in that case the non-current
player wins by forfeit, the game finishes and that player's score is
incremented. -/
def fireMoveTimer (room : Option HRoom) : Option HRoom :=
  match room with
  | none => none
  | some r =>
    if r.game.gameStatus ≠ .playing then some r
    else
      some ⟨{ r.game with winner := some (.player (other r.game.currentPlayer))
                          gameStatus := .finished
                          scores := bumpScore r.game.scores (other r.game.currentPlayer) },
            r.members⟩

/-- Room states of the hardened variant reachable from an absent room by
any sequence of handler invocations and timer firings. -/
inductive HRoomReach : Option HRoom → Prop
  | init : HRoomReach none
  | join (s : Option HRoom) (c : Nat) (now : Int) :
      HRoomReach s → HRoomReach (some (handleJoin s c now).1)
  | mv (s : Option HRoom) (c : Nat) (index now : Int) (rl : Bool) :
      HRoomReach s → HRoomReach (handleMakeMove s c index now rl).1
  | rm (s : Option HRoom) (c : Nat) (index now : Int) (rl : Bool) :
      HRoomReach s → HRoomReach (handleRemoveSymbol s c index now rl).1
  | again (s : Option HRoom) (c : Nat) (now : Int) :
      HRoomReach s → HRoomReach (handleRematch s c now).1
  | leave (s : Option HRoom) (c : Nat) :
      HRoomReach s → HRoomReach (handleDisconnect s c)
  | fire (s : Option HRoom) :
      HRoomReach s → HRoomReach (fireMoveTimer s)

/-! ## Rate limiter (`checkRateLimit`) -/

/-- `CONFIG.RATE_LIMIT_WINDOW` (ms). -/
def RATE_WINDOW : Int := 1000

/-- `CONFIG.MAX_MOVES_PER_WINDOW`. -/
def MAX_MOVES_PER_WINDOW : Nat := 5

/-- Per-connection rate-limit entry `{count, resetTime}`. -/
structure RateEntry where
  count : Nat
  resetTime : Int
deriving DecidableEq

/-- `checkRateLimit(socketId)` over the connection's stored entry (absent
entry defaults to `{count: 0, resetTime: now + RATE_LIMIT_WINDOW}`):
`now > resetTime` restarts the window with count 1, else the count is
incremented; the action is allowed while `count <= MAX_MOVES_PER_WINDOW`. -/
def checkRateLimit (now : Int) (st : Option RateEntry) : Bool × RateEntry :=
  let limit := st.getD ⟨0, now + RATE_WINDOW⟩
  let limit2 := if limit.resetTime < now
                then RateEntry.mk 1 (now + RATE_WINDOW)
                else { limit with count := limit.count + 1 }
  (decide (limit2.count ≤ MAX_MOVES_PER_WINDOW), limit2)

/-- A sequence of rate-limited actions by one connection at the given
times: the list of verdicts and the final stored entry. -/
def runRateLimit (st : Option RateEntry) : List Int → List Bool × Option RateEntry
  | [] => ([], st)
  | t :: ts =>
    let first := checkRateLimit t st
    let rest := runRateLimit (some first.2) ts
    (first.1 :: rest.1, rest.2)

/-! ## Board/moves consistency invariants (spec section 3) -/

/-- Per-player board/moves correspondence: cell `i` holds `p`'s symbol
exactly when `i` is recorded in `p`'s moves list. -/
def corr (b : List Cell) (p : Player) (m : List Int) : Prop :=
  ∀ idx : Fin 9, b[(idx : Nat)]? = some (Cell.mark p) ↔ ((idx : Nat) : Int) ∈ m

instance (b : List Cell) (p : Player) (m : List Int) : Decidable (corr b p m) := by
  unfold corr; infer_instance

/-- All recorded move indices are legal cell indices. -/
def rangedMoves (m : List Int) : Prop :=
  ∀ j ∈ m, 0 ≤ j ∧ j < 9

instance (m : List Int) : Decidable (rangedMoves m) := by
  unfold rangedMoves; infer_instance

/-- The inductive consistency invariant a game's board and moves lists
satisfy in both variants (as long as `undo` is not involved). -/
def GoodState (b : List Cell) (mX mO : List Int) : Prop :=
  b.length = 9 ∧
  corr b .X mX ∧ corr b .O mO ∧
  rangedMoves mX ∧ rangedMoves mO ∧
  mX.Nodup ∧ mO.Nodup ∧
  mX.length + mO.length + b.count .empty = 9 ∧
  mX.length ≤ MAX_SYMBOLS ∧ mO.length ≤ MAX_SYMBOLS

instance (b : List Cell) (mX mO : List Int) : Decidable (GoodState b mX mO) := by
  unfold GoodState; infer_instance

/-- The invariants exactly as the specification states them: a cell is
non-empty iff its index appears in exactly one player's moves list, the
moves lengths plus the empty-cell count total 9, and both moves lists
respect the symbol cap. -/
def ClaimInvCore (b : List Cell) (mX mO : List Int) : Prop :=
  (∀ idx : Fin 9, b[(idx : Nat)]? ≠ some Cell.empty ↔
      ((((idx : Nat) : Int) ∈ mX ∧ ((idx : Nat) : Int) ∉ mO) ∨
       (((idx : Nat) : Int) ∈ mO ∧ ((idx : Nat) : Int) ∉ mX))) ∧
  mX.length + mO.length + b.count Cell.empty = 9 ∧
  mX.length ≤ MAX_SYMBOLS ∧ mO.length ≤ MAX_SYMBOLS

instance (b : List Cell) (mX mO : List Int) : Decidable (ClaimInvCore b mX mO) := by
  unfold ClaimInvCore; infer_instance


/-! ## Concrete traces used to settle the claims -/

/-- Simple variant: X places at cell 0 from the fresh game. -/
def c1s1v : SGame := (makeMoveS initialSGame .X 0).getD initialSGame

/-- then X removes its symbol at 0 (accepted: no turn check on removal). -/
def c1s2v : SGame := (removeSymbolS c1s1v .X 0).getD initialSGame

/-- then O places at the now-empty cell 0. -/
def c1s3v : SGame := (makeMoveS c1s2v .O 0).getD initialSGame

/-- the state after `undo` re-places X's removed symbol over O's cell. -/
def c1s4v : SGame := (undoS c1s3v).getD initialSGame

/-- Hardened trace: connection 1 joins a fresh room (role X). -/
def wt1 : Option HRoom := some (handleJoin none 1 100).1

/-- connection 2 joins (role O), game starts. -/
def wt2v : HRoom := (handleJoin wt1 2 100).1

def wt2 : Option HRoom := some wt2v

def wt3 : Option HRoom := (handleMakeMove wt2 1 0 101 true).1

def wt4 : Option HRoom := (handleMakeMove wt3 2 3 102 true).1

def wt5 : Option HRoom := (handleMakeMove wt4 1 1 103 true).1

/-- X at 0 and 1, O at 3 and 4, X to move. -/
def wt6 : Option HRoom := (handleMakeMove wt5 2 4 104 true).1

/-- X completes the 0-1-2 row: game finished, winner X. -/
def wt7 : Option HRoom := (handleMakeMove wt6 1 2 105 true).1

def wt7v : HRoom := wt7.getD ⟨createGame 0, []⟩

/-- the active player O disconnects after the game is over. -/
def wt8 : Option HRoom := handleDisconnect wt7 2

/-- Alternative continuation from `wt3` avoiding a win: O at 5. -/
def st4 : Option HRoom := (handleMakeMove wt3 2 5 102 true).1

def st5 : Option HRoom := (handleMakeMove st4 1 1 103 true).1

def st6 : Option HRoom := (handleMakeMove st5 2 7 104 true).1

/-- X has placed its third symbol (cells 0, 1, 3), O to move. -/
def st7 : Option HRoom := (handleMakeMove st6 1 3 105 true).1

def st7v : HRoom := st7.getD ⟨createGame 0, []⟩

/-- O places at 2: X is at the symbol cap and it is X's turn. -/
def st8 : Option HRoom := (handleMakeMove st7 2 2 106 true).1

def st8v : HRoom := st8.getD ⟨createGame 0, []⟩

/-- Connection 3 joins the two-player room as a spectator. -/
def rt3 : Option HRoom := some (handleJoin wt2 3 106).1

/-- then the active player O disconnects: one non-spectator remains. -/
def rt4 : Option HRoom := handleDisconnect rt3 2

def rt4v : HRoom := rt4.getD ⟨createGame 0, []⟩

/-- The game produced by X's accepted opening move in `wt2v`. -/
def c2wg : HGame :=
  (makeMoveGame wt2v.game (some Role.rx) 0 101).toOption.getD (createGame 0)

/-- The board/moves part of the hardened room invariant. -/
def roomGood : Option HRoom → Prop
  | none => True
  | some r => GoodState r.game.board r.game.movesX r.game.movesO

/-- The status/winner part of the specified invariant, in the direction the
hardened code actually maintains. -/
def roomFW : Option HRoom → Prop
  | none => True
  | some r => r.game.gameStatus = .finished → r.game.winner ≠ none

/-- The per-room role uniqueness invariant: at most one member holds X and
at most one holds O. -/
def roomRoles : Option HRoom → Prop
  | none => True
  | some r => (r.members.map (·.2)).count Role.rx ≤ 1 ∧
              (r.members.map (·.2)).count Role.ro ≤ 1

lemma jsGet_some {b : List Cell} {i : Int} {c : Cell} (h : jsGet b i = some c) :
    0 ≤ i ∧ i.toNat < b.length ∧ b[i.toNat]? = some c := by
  unfold jsGet at h
  split at h
  · obtain ⟨hlt, -⟩ := List.getElem?_eq_some.mp h
    exact ⟨by assumption, hlt, h⟩
  · exact absurd h (by simp)

lemma mem_of_corr {b : List Cell} {p : Player} {m : List Int} (hc : corr b p m)
    {i : Int} (h0 : 0 ≤ i) (hlt : i.toNat < 9)
    (hget : b[i.toNat]? = some (Cell.mark p)) : i ∈ m := by
  have := (hc ⟨i.toNat, hlt⟩).mp hget
  rwa [Int.toNat_of_nonneg h0] at this

lemma not_mem_of_corr {b : List Cell} {p : Player} {m : List Int} (hc : corr b p m)
    {i : Int} (h0 : 0 ≤ i) (hlt : i.toNat < 9) {c : Cell}
    (hget : b[i.toNat]? = some c) (hne : c ≠ Cell.mark p) : i ∉ m := by
  intro hmem
  have hmem2 : ((i.toNat : Nat) : Int) ∈ m := by rwa [Int.toNat_of_nonneg h0]
  have := (hc ⟨i.toNat, hlt⟩).mpr hmem2
  rw [hget] at this
  exact hne (Option.some.inj this)

lemma corr_set_self {b : List Cell} {p : Player} {m : List Int} {i : Int}
    (hc : corr b p m) (h0 : 0 ≤ i)
    (hget : b[i.toNat]? = some Cell.empty) :
    corr (b.set i.toNat (Cell.mark p)) p (m ++ [i]) := by
  obtain ⟨hlt, -⟩ := List.getElem?_eq_some.mp hget
  intro idx
  by_cases hidx : (idx : Nat) = i.toNat
  · rw [hidx, List.getElem?_set_eq_of_lt _ hlt]
    simp [Int.toNat_of_nonneg h0]
  · rw [List.getElem?_set_ne (fun h => hidx h.symm)]
    rw [hc idx]
    have hne : ((idx : Nat) : Int) ≠ i := by
      intro h
      apply hidx
      omega
    simp [List.mem_append, hne]

lemma corr_set_mark_other {b : List Cell} {p q : Player} {m : List Int} {i : Int}
    (hqp : q ≠ p) (hc : corr b q m) (hlen : b.length = 9) (h0 : 0 ≤ i)
    (hget : b[i.toNat]? = some Cell.empty) :
    corr (b.set i.toNat (Cell.mark p)) q m := by
  obtain ⟨hlt, -⟩ := List.getElem?_eq_some.mp hget
  intro idx
  by_cases hidx : (idx : Nat) = i.toNat
  · rw [hidx, List.getElem?_set_eq_of_lt _ hlt]
    constructor
    · intro h
      exact absurd (Option.some.inj h) (by simp [hqp.symm])
    · intro hmem
      have hlt9 : i.toNat < 9 := by omega
      have hni : i ∉ m := not_mem_of_corr hc h0 hlt9 hget (by simp)
      rw [Int.toNat_of_nonneg h0] at hmem
      exact absurd hmem hni
  · rw [List.getElem?_set_ne (fun h => hidx h.symm)]
    exact hc idx

lemma corr_unset_self {b : List Cell} {p : Player} {m : List Int} {i : Int}
    (hc : corr b p m) (h0 : 0 ≤ i)
    (hget : b[i.toNat]? = some (Cell.mark p)) :
    corr (b.set i.toNat Cell.empty) p (m.filter (· ≠ i)) := by
  obtain ⟨hlt, -⟩ := List.getElem?_eq_some.mp hget
  intro idx
  by_cases hidx : (idx : Nat) = i.toNat
  · rw [hidx, List.getElem?_set_eq_of_lt _ hlt]
    constructor
    · intro h
      exact absurd (Option.some.inj h) (by simp)
    · intro hmem
      rw [List.mem_filter] at hmem
      have hne : ((i.toNat : Nat) : Int) ≠ i := of_decide_eq_true hmem.2
      exact absurd (Int.toNat_of_nonneg h0) hne
  · rw [List.getElem?_set_ne (fun h => hidx h.symm)]
    rw [hc idx]
    have hne : ((idx : Nat) : Int) ≠ i := by
      intro h
      apply hidx
      omega
    simp [List.mem_filter, hne]

lemma corr_unset_other {b : List Cell} {p q : Player} {m : List Int} {i : Int}
    (hqp : q ≠ p) (hc : corr b q m) (hlen : b.length = 9) (h0 : 0 ≤ i)
    (hget : b[i.toNat]? = some (Cell.mark p)) :
    corr (b.set i.toNat Cell.empty) q m := by
  obtain ⟨hlt, -⟩ := List.getElem?_eq_some.mp hget
  intro idx
  by_cases hidx : (idx : Nat) = i.toNat
  · rw [hidx, List.getElem?_set_eq_of_lt _ hlt]
    constructor
    · intro h
      exact absurd (Option.some.inj h) (by simp)
    · intro hmem
      have hlt9 : i.toNat < 9 := by omega
      have hni : i ∉ m :=
        not_mem_of_corr hc h0 hlt9 hget (by simp [hqp.symm])
      rw [Int.toNat_of_nonneg h0] at hmem
      exact absurd hmem hni
  · rw [List.getElem?_set_ne (fun h => hidx h.symm)]
    exact hc idx

lemma count_set_place (p : Player) {b : List Cell} {n : Nat}
    (h : b[n]? = some Cell.empty) :
    (b.set n (Cell.mark p)).count Cell.empty + 1 = b.count Cell.empty := by
  obtain ⟨hlt, hget⟩ := List.getElem?_eq_some.mp h
  have hmem : Cell.empty ∈ b := by
    rw [← hget]
    exact List.getElem_mem hlt
  have hpos : 0 < b.count Cell.empty := List.count_pos_iff.mpr hmem
  rw [List.count_set _ _ _ _ hlt]
  simp [hget]
  omega

lemma count_set_withdraw {b : List Cell} {n : Nat} {p : Player}
    (h : b[n]? = some (Cell.mark p)) :
    (b.set n Cell.empty).count Cell.empty = b.count Cell.empty + 1 := by
  obtain ⟨hlt, hget⟩ := List.getElem?_eq_some.mp h
  rw [List.count_set _ _ _ _ hlt]
  simp [hget]

lemma length_filter_ne_of_nodup {l : List Int} {a : Int} (hnd : l.Nodup) (ha : a ∈ l) :
    (l.filter (· ≠ a)).length + 1 = l.length := by
  induction l with
  | nil => cases ha
  | cons x t ih =>
    rw [List.nodup_cons] at hnd
    rcases List.mem_cons.mp ha with h | h
    · subst h
      have hft : t.filter (· ≠ a) = t := by
        refine List.filter_eq_self.mpr (fun b hb => ?_)
        rw [decide_eq_true_eq]
        intro hba
        exact hnd.1 (hba ▸ hb)
      rw [List.filter_cons, if_neg (by simp), hft]
      simp
    · have hxa : ¬ (x = a) := fun he => hnd.1 (he ▸ h)
      rw [List.filter_cons, if_pos (by rw [decide_eq_true_eq]; exact hxa)]
      have hih := ih hnd.2 h
      simp only [List.length_cons]
      omega

lemma good_place_X {b : List Cell} {mX mO : List Int} {i : Int}
    (hg : GoodState b mX mO) (hacc : jsGet b i = some Cell.empty)
    (hcap : mX.length < 3) :
    GoodState (jsSet b i (Cell.mark .X)) (mX ++ [i]) mO := by
  obtain ⟨hlen, hcX, hcO, hrX, hrO, hndX, hndO, hcount, hbX, hbO⟩ := hg
  obtain ⟨h0, hlt, hget⟩ := jsGet_some hacc
  have hset : jsSet b i (Cell.mark .X) = b.set i.toNat (Cell.mark .X) := by
    unfold jsSet
    rw [if_pos h0]
  rw [hset]
  have hlt9 : i.toNat < 9 := by omega
  have hnX : i ∉ mX := not_mem_of_corr hcX h0 hlt9 hget (by simp)
  refine ⟨by simp [hlen], corr_set_self hcX h0 hget,
    corr_set_mark_other (by decide) hcO hlen h0 hget, ?_, hrO, ?_, hndO, ?_, ?_, hbO⟩
  · intro j hj
    rcases List.mem_append.mp hj with h | h
    · exact hrX j h
    · simp at h
      omega
  · rw [List.nodup_append]
    refine ⟨hndX, List.nodup_singleton i, ?_⟩
    intro a haX ha1
    simp at ha1
    exact hnX (ha1 ▸ haX)
  · have := count_set_place Player.X hget
    simp only [List.length_append, List.length_singleton]
    omega
  · simp only [List.length_append, List.length_singleton]
    unfold MAX_SYMBOLS at hbX ⊢
    omega

lemma good_place_O {b : List Cell} {mX mO : List Int} {i : Int}
    (hg : GoodState b mX mO) (hacc : jsGet b i = some Cell.empty)
    (hcap : mO.length < 3) :
    GoodState (jsSet b i (Cell.mark .O)) mX (mO ++ [i]) := by
  obtain ⟨hlen, hcX, hcO, hrX, hrO, hndX, hndO, hcount, hbX, hbO⟩ := hg
  obtain ⟨h0, hlt, hget⟩ := jsGet_some hacc
  have hset : jsSet b i (Cell.mark .O) = b.set i.toNat (Cell.mark .O) := by
    unfold jsSet
    rw [if_pos h0]
  rw [hset]
  have hlt9 : i.toNat < 9 := by omega
  have hnO : i ∉ mO := not_mem_of_corr hcO h0 hlt9 hget (by simp)
  refine ⟨by simp [hlen], corr_set_mark_other (by decide) hcX hlen h0 hget,
    corr_set_self hcO h0 hget, hrX, ?_, hndX, ?_, ?_, hbX, ?_⟩
  · intro j hj
    rcases List.mem_append.mp hj with h | h
    · exact hrO j h
    · simp at h
      omega
  · rw [List.nodup_append]
    refine ⟨hndO, List.nodup_singleton i, ?_⟩
    intro a haO ha1
    simp at ha1
    exact hnO (ha1 ▸ haO)
  · have := count_set_place Player.O hget
    simp only [List.length_append, List.length_singleton]
    omega
  · simp only [List.length_append, List.length_singleton]
    unfold MAX_SYMBOLS at hbO ⊢
    omega

lemma good_remove_X {b : List Cell} {mX mO : List Int} {i : Int}
    (hg : GoodState b mX mO) (hacc : jsGet b i = some (Cell.mark .X)) :
    GoodState (jsSet b i Cell.empty) (mX.filter (· ≠ i)) mO := by
  obtain ⟨hlen, hcX, hcO, hrX, hrO, hndX, hndO, hcount, hbX, hbO⟩ := hg
  obtain ⟨h0, hlt, hget⟩ := jsGet_some hacc
  have hset : jsSet b i Cell.empty = b.set i.toNat Cell.empty := by
    unfold jsSet
    rw [if_pos h0]
  rw [hset]
  have hlt9 : i.toNat < 9 := by omega
  have hmX : i ∈ mX := mem_of_corr hcX h0 hlt9 hget
  refine ⟨by simp [hlen], corr_unset_self hcX h0 hget,
    corr_unset_other (by decide) hcO hlen h0 hget, ?_, hrO, hndX.filter _, hndO,
    ?_, ?_, hbO⟩
  · intro j hj
    exact hrX j (List.mem_of_mem_filter hj)
  · have h1 := count_set_withdraw hget
    have h2 := length_filter_ne_of_nodup hndX hmX
    omega
  · exact le_trans (List.length_filter_le _ _) hbX

lemma good_remove_O {b : List Cell} {mX mO : List Int} {i : Int}
    (hg : GoodState b mX mO) (hacc : jsGet b i = some (Cell.mark .O)) :
    GoodState (jsSet b i Cell.empty) mX (mO.filter (· ≠ i)) := by
  obtain ⟨hlen, hcX, hcO, hrX, hrO, hndX, hndO, hcount, hbX, hbO⟩ := hg
  obtain ⟨h0, hlt, hget⟩ := jsGet_some hacc
  have hset : jsSet b i Cell.empty = b.set i.toNat Cell.empty := by
    unfold jsSet
    rw [if_pos h0]
  rw [hset]
  have hlt9 : i.toNat < 9 := by omega
  have hmO : i ∈ mO := mem_of_corr hcO h0 hlt9 hget
  refine ⟨by simp [hlen], corr_unset_other (by decide) hcX hlen h0 hget,
    corr_unset_self hcO h0 hget, hrX, ?_, hndX, hndO.filter _,
    ?_, hbX, ?_⟩
  · intro j hj
    exact hrO j (List.mem_of_mem_filter hj)
  · have h1 := count_set_withdraw hget
    have h2 := length_filter_ne_of_nodup hndO hmO
    omega
  · exact le_trans (List.length_filter_le _ _) hbO

lemma good_imp_claim {b : List Cell} {mX mO : List Int}
    (hg : GoodState b mX mO) : ClaimInvCore b mX mO := by
  obtain ⟨hlen, hcX, hcO, hrX, hrO, hndX, hndO, hcount, hbX, hbO⟩ := hg
  refine ⟨?_, hcount, hbX, hbO⟩
  intro idx
  have hlt : (idx : Nat) < b.length := by omega
  have hsome : b[(idx : Nat)]? = some b[(idx : Nat)] := List.getElem?_eq_getElem hlt
  rcases hcell : b[(idx : Nat)] with - | p
  · rw [hsome, hcell]
    constructor
    · intro h
      exact absurd rfl h
    · rintro (⟨hX, -⟩ | ⟨hO, -⟩)
      · have := (hcX idx).mpr hX
        rw [hsome, hcell] at this
        cases this
      · have := (hcO idx).mpr hO
        rw [hsome, hcell] at this
        cases this
  · cases p
    · rw [hsome, hcell]
      constructor
      · intro _
        left
        refine ⟨(hcX idx).mp (by rw [hsome, hcell]), fun hO => ?_⟩
        have := (hcO idx).mpr hO
        rw [hsome, hcell] at this
        cases this
      · intro _
        simp
    · rw [hsome, hcell]
      constructor
      · intro _
        right
        refine ⟨(hcO idx).mp (by rw [hsome, hcell]), fun hX => ?_⟩
        have := (hcX idx).mpr hX
        rw [hsome, hcell] at this
        cases this
      · intro _
        simp

lemma makeMoveS_good {g : SGame} {p : Player} {i : Int} {g2 : SGame}
    (h : makeMoveS g p i = some g2) (hg : GoodState g.board g.movesX g.movesO) :
    GoodState g2.board g2.movesX g2.movesO := by
  unfold makeMoveS at h
  split_ifs at h with h1 h2 h3
  simp only [Option.some.injEq] at h
  subst h
  cases p
  · dsimp only [ssetMoves, smoves]
    refine good_place_X hg (not_not.mp h3) ?_
    simp only [smoves] at h2
    omega
  · dsimp only [ssetMoves, smoves]
    refine good_place_O hg (not_not.mp h3) ?_
    simp only [smoves] at h2
    omega

lemma removeSymbolS_good {g : SGame} {p : Player} {i : Int} {g2 : SGame}
    (h : removeSymbolS g p i = some g2) (hg : GoodState g.board g.movesX g.movesO) :
    GoodState g2.board g2.movesX g2.movesO := by
  unfold removeSymbolS at h
  split_ifs at h with h1
  simp only [Option.some.injEq] at h
  subst h
  cases p
  · dsimp only [ssetMoves, smoves]
    exact good_remove_X hg h1
  · dsimp only [ssetMoves, smoves]
    exact good_remove_O hg h1

lemma sreach_nu_good {g : SGame} (h : SReachNoUndo g) :
    GoodState g.board g.movesX g.movesO := by
  induction h with
  | init => decide
  | place g p i g2 hr he ih => exact makeMoveS_good he ih
  | withdraw g p i g2 hr he ih => exact removeSymbolS_good he ih
  | reset g hr ih => decide

lemma makeMoveGame_good {g : HGame} {role : Option Role} {i t : Int} {g2 : HGame}
    (h : makeMoveGame g role i t = .ok g2) (hg : GoodState g.board g.movesX g.movesO) :
    GoodState g2.board g2.movesX g2.movesO := by
  rcases role with _ | ρ
  · exact Except.noConfusion h
  rcases ρ with _ | _ | _
  · simp only [makeMoveGame, Role.player] at h
    split_ifs at h with h1 h2 h3 h4 h5
    rcases hw : checkWinner (jsSet g.board i (Cell.mark .X)) with _ | wl
    · rw [hw] at h
      simp only [Except.ok.injEq] at h
      subst h
      dsimp only [hsetMoves, hmoves]
      refine good_place_X hg (not_not.mp h5) ?_
      simp only [hmoves, MAX_SYMBOLS] at h3
      omega
    · rcases wl with ⟨w, line⟩
      rw [hw] at h
      simp only [Except.ok.injEq] at h
      subst h
      dsimp only [hsetMoves, hmoves]
      refine good_place_X hg (not_not.mp h5) ?_
      simp only [hmoves, MAX_SYMBOLS] at h3
      omega
  · simp only [makeMoveGame, Role.player] at h
    split_ifs at h with h1 h2 h3 h4 h5
    rcases hw : checkWinner (jsSet g.board i (Cell.mark .O)) with _ | wl
    · rw [hw] at h
      simp only [Except.ok.injEq] at h
      subst h
      dsimp only [hsetMoves, hmoves]
      refine good_place_O hg (not_not.mp h5) ?_
      simp only [hmoves, MAX_SYMBOLS] at h3
      omega
    · rcases wl with ⟨w, line⟩
      rw [hw] at h
      simp only [Except.ok.injEq] at h
      subst h
      dsimp only [hsetMoves, hmoves]
      refine good_place_O hg (not_not.mp h5) ?_
      simp only [hmoves, MAX_SYMBOLS] at h3
      omega
  · exact Except.noConfusion h

lemma removeSymbolGame_good {g : HGame} {role : Option Role} {i t : Int} {g2 : HGame}
    (h : removeSymbolGame g role i t = .ok g2)
    (hg : GoodState g.board g.movesX g.movesO) :
    GoodState g2.board g2.movesX g2.movesO := by
  rcases role with _ | ρ
  · exact Except.noConfusion h
  rcases ρ with _ | _ | _
  · simp only [removeSymbolGame, Role.player] at h
    split_ifs at h with h1 h2 h3
    simp only [Except.ok.injEq] at h
    subst h
    dsimp only [hsetMoves, hmoves]
    exact good_remove_X hg (not_not.mp h3)
  · simp only [removeSymbolGame, Role.player] at h
    split_ifs at h with h1 h2 h3
    simp only [Except.ok.injEq] at h
    subst h
    dsimp only [hsetMoves, hmoves]
    exact good_remove_O hg (not_not.mp h3)
  · exact Except.noConfusion h

lemma good_createGame (now : Int) :
    GoodState (createGame now).board (createGame now).movesX (createGame now).movesO := by
  show GoodState (List.replicate 9 Cell.empty) [] []
  decide

lemma handleJoin_core (s : Option HRoom) (c : Nat) (now : Int) :
    (handleJoin s c now).1.game.board = (s.getD ⟨createGame now, []⟩).game.board ∧
    (handleJoin s c now).1.game.movesX = (s.getD ⟨createGame now, []⟩).game.movesX ∧
    (handleJoin s c now).1.game.movesO = (s.getD ⟨createGame now, []⟩).game.movesO := by
  simp only [handleJoin]
  rcases hlk : lookupRole (s.getD ⟨createGame now, []⟩).members c with _ | ρ
  · refine ⟨?_, ?_, ?_⟩ <;> (dsimp only; split <;> rfl)
  · exact ⟨rfl, rfl, rfl⟩

lemma hreach_good {s : Option HRoom} (h : HRoomReach s) : roomGood s := by
  induction h with
  | init => trivial
  | join s c now hr ih =>
    have hb := handleJoin_core s c now
    show GoodState (handleJoin s c now).1.game.board (handleJoin s c now).1.game.movesX
      (handleJoin s c now).1.game.movesO
    rw [hb.1, hb.2.1, hb.2.2]
    rcases s with _ | r
    · exact good_createGame now
    · exact ih
  | mv s c index now rl hr ih =>
    show roomGood (handleMakeMove s c index now rl).1
    unfold handleMakeMove
    by_cases hrl : rl = false
    · rw [if_pos hrl]
      exact ih
    · rw [if_neg hrl]
      rcases s with _ | r
      · trivial
      · rcases hm : makeMoveGame r.game (lookupRole r.members c) index now with e | g2
        · dsimp only
          rw [hm]
          exact ih
        · dsimp only
          rw [hm]
          exact makeMoveGame_good hm ih
  | rm s c index now rl hr ih =>
    show roomGood (handleRemoveSymbol s c index now rl).1
    unfold handleRemoveSymbol
    by_cases hrl : rl = false
    · rw [if_pos hrl]
      exact ih
    · rw [if_neg hrl]
      rcases s with _ | r
      · trivial
      · rcases hm : removeSymbolGame r.game (lookupRole r.members c) index now with e | g2
        · dsimp only
          rw [hm]
          exact ih
        · dsimp only
          rw [hm]
          exact removeSymbolGame_good hm ih
  | again s c now hr ih =>
    show roomGood (handleRematch s c now).1
    rcases s with _ | r
    · trivial
    · unfold handleRematch
      rcases hlk : lookupRole r.members c with _ | ρ
      · dsimp only
        rw [hlk]
        exact ih
      · dsimp only
        rw [hlk]
        rcases ρ with _ | _ | _
        · exact good_createGame now
        · exact good_createGame now
        · exact ih
  | leave s c hr ih =>
    show roomGood (handleDisconnect s c)
    rcases s with _ | r
    · trivial
    · simp only [handleDisconnect]
      rcases hlk : lookupRole r.members c with _ | ρ
      · exact ih
      · dsimp only
        split
        · trivial
        · split
          · exact ih
          · exact ih
  | fire s hr ih =>
    show roomGood (fireMoveTimer s)
    rcases s with _ | r
    · trivial
    · unfold fireMoveTimer
      dsimp only
      split
      · exact ih
      · exact ih

lemma makeMoveGame_ok {g : HGame} {role : Option Role} {i t : Int} {g2 : HGame}
    (h : makeMoveGame g role i t = .ok g2) :
    ∃ ρ p, role = some ρ ∧ ρ.player = some p ∧
      g.gameStatus = .playing ∧ p = g.currentPlayer ∧
      (hmoves g p).length < MAX_SYMBOLS ∧ 0 ≤ i ∧ i ≤ 8 ∧
      jsGet g.board i = some .empty ∧
      ((checkWinner (jsSet g.board i (.mark p)) = none ∧
        g2.currentPlayer = other p ∧ g2.gameStatus = .playing ∧ g2.winner = g.winner) ∨
       (∃ w line, checkWinner (jsSet g.board i (.mark p)) = some (w, line) ∧
        g2.currentPlayer = g.currentPlayer ∧ g2.gameStatus = .finished ∧
        g2.winner = some w)) := by
  rcases role with _ | ρ
  · exact Except.noConfusion h
  rcases ρ with _ | _ | _
  · simp only [makeMoveGame, Role.player] at h
    split_ifs at h with h1 h2 h3 h4 h5
    refine ⟨.rx, .X, rfl, rfl, not_not.mp h1, not_not.mp h2, ?_, ?_, ?_, not_not.mp h5, ?_⟩
    · simp only [MAX_SYMBOLS] at h3 ⊢
      omega
    · omega
    · omega
    · rcases hw : checkWinner (jsSet g.board i (Cell.mark .X)) with _ | wl
      · rw [hw] at h
        simp only [Except.ok.injEq] at h
        subst h
        exact Or.inl ⟨rfl, rfl, not_not.mp h1, rfl⟩
      · rcases wl with ⟨w, line⟩
        rw [hw] at h
        simp only [Except.ok.injEq] at h
        subst h
        exact Or.inr ⟨w, line, rfl, rfl, rfl, rfl⟩
  · simp only [makeMoveGame, Role.player] at h
    split_ifs at h with h1 h2 h3 h4 h5
    refine ⟨.ro, .O, rfl, rfl, not_not.mp h1, not_not.mp h2, ?_, ?_, ?_, not_not.mp h5, ?_⟩
    · simp only [MAX_SYMBOLS] at h3 ⊢
      omega
    · omega
    · omega
    · rcases hw : checkWinner (jsSet g.board i (Cell.mark .O)) with _ | wl
      · rw [hw] at h
        simp only [Except.ok.injEq] at h
        subst h
        exact Or.inl ⟨rfl, rfl, not_not.mp h1, rfl⟩
      · rcases wl with ⟨w, line⟩
        rw [hw] at h
        simp only [Except.ok.injEq] at h
        subst h
        exact Or.inr ⟨w, line, rfl, rfl, rfl, rfl⟩
  · exact Except.noConfusion h

lemma removeSymbolGame_ok {g : HGame} {role : Option Role} {i t : Int} {g2 : HGame}
    (h : removeSymbolGame g role i t = .ok g2) :
    ∃ ρ p, role = some ρ ∧ ρ.player = some p ∧
      g.gameStatus = .playing ∧ p = g.currentPlayer ∧
      jsGet g.board i = some (.mark p) ∧
      g2.currentPlayer = other p ∧ g2.gameStatus = .playing ∧
      g2.winner = g.winner := by
  rcases role with _ | ρ
  · exact Except.noConfusion h
  rcases ρ with _ | _ | _
  · simp only [removeSymbolGame, Role.player] at h
    split_ifs at h with h1 h2 h3
    simp only [Except.ok.injEq] at h
    subst h
    exact ⟨.rx, .X, rfl, rfl, not_not.mp h1, not_not.mp h2, not_not.mp h3, rfl,
      not_not.mp h1, rfl⟩
  · simp only [removeSymbolGame, Role.player] at h
    split_ifs at h with h1 h2 h3
    simp only [Except.ok.injEq] at h
    subst h
    exact ⟨.ro, .O, rfl, rfl, not_not.mp h1, not_not.mp h2, not_not.mp h3, rfl,
      not_not.mp h1, rfl⟩
  · exact Except.noConfusion h

lemma hreach_fw {s : Option HRoom} (h : HRoomReach s) : roomFW s := by
  induction h with
  | init => trivial
  | join s c now hr ih =>
    show roomFW (some (handleJoin s c now).1)
    rcases s with _ | r
    · intro hfin
      rw [show (handleJoin none c now).1.game.gameStatus = Status.waiting from rfl] at hfin
      exact Status.noConfusion hfin
    · simp only [handleJoin, Option.getD_some]
      rcases hlk : lookupRole r.members c with _ | ρ
      · dsimp only
        split
        · intro hfin
          exact Status.noConfusion hfin
        · exact ih
      · exact ih
  | mv s c index now rl hr ih =>
    show roomFW (handleMakeMove s c index now rl).1
    unfold handleMakeMove
    by_cases hrl : rl = false
    · rw [if_pos hrl]
      exact ih
    · rw [if_neg hrl]
      rcases s with _ | r
      · trivial
      · rcases hm : makeMoveGame r.game (lookupRole r.members c) index now with e | g2
        · dsimp only
          rw [hm]
          exact ih
        · dsimp only
          rw [hm]
          obtain ⟨ρ, p, -, -, -, -, -, -, -, -, hres⟩ := makeMoveGame_ok hm
          rcases hres with ⟨-, -, hst, -⟩ | ⟨w, line, -, -, -, hw⟩
          · intro hfin
            rw [hst] at hfin
            exact Status.noConfusion hfin
          · intro _
            rw [hw]
            simp
  | rm s c index now rl hr ih =>
    show roomFW (handleRemoveSymbol s c index now rl).1
    unfold handleRemoveSymbol
    by_cases hrl : rl = false
    · rw [if_pos hrl]
      exact ih
    · rw [if_neg hrl]
      rcases s with _ | r
      · trivial
      · rcases hm : removeSymbolGame r.game (lookupRole r.members c) index now with e | g2
        · dsimp only
          rw [hm]
          exact ih
        · dsimp only
          rw [hm]
          obtain ⟨ρ, p, -, -, -, -, -, -, hst, -⟩ := removeSymbolGame_ok hm
          intro hfin
          rw [hst] at hfin
          exact Status.noConfusion hfin
  | again s c now hr ih =>
    show roomFW (handleRematch s c now).1
    rcases s with _ | r
    · trivial
    · unfold handleRematch
      dsimp only
      rcases hlk : lookupRole r.members c with _ | ρ
      · exact ih
      · rcases ρ with _ | _ | _
        · intro hfin
          exact Status.noConfusion hfin
        · intro hfin
          exact Status.noConfusion hfin
        · exact ih
  | leave s c hr ih =>
    show roomFW (handleDisconnect s c)
    rcases s with _ | r
    · trivial
    · simp only [handleDisconnect]
      rcases hlk : lookupRole r.members c with _ | ρ
      · exact ih
      · dsimp only
        split
        · trivial
        · split
          · intro hfin
            exact Status.noConfusion hfin
          · exact ih
  | fire s hr ih =>
    show roomFW (fireMoveTimer s)
    rcases s with _ | r
    · trivial
    · unfold fireMoveTimer
      dsimp only
      split
      · exact ih
      · intro _
        simp

lemma handleMakeMove_error {s s2 : Option HRoom} {c : Nat} {index now : Int}
    {rl : Bool} {e : MoveError}
    (h : handleMakeMove s c index now rl = (s2, some e)) : s2 = s := by
  unfold handleMakeMove at h
  split_ifs at h with hrl
  · rw [Prod.mk.injEq] at h
    exact h.1.symm
  · rcases s with _ | r
    · dsimp only at h
      rw [Prod.mk.injEq] at h
      exact h.1.symm
    · dsimp only at h
      rcases hm : makeMoveGame r.game (lookupRole r.members c) index now with e2 | g2
      · rw [hm] at h
        dsimp only at h
        rw [Prod.mk.injEq] at h
        exact h.1.symm
      · rw [hm] at h
        dsimp only at h
        rw [Prod.mk.injEq] at h
        exact absurd h.2 (by simp)

lemma handleRemoveSymbol_error {s s2 : Option HRoom} {c : Nat} {index now : Int}
    {rl : Bool} {e : MoveError}
    (h : handleRemoveSymbol s c index now rl = (s2, some e)) : s2 = s := by
  unfold handleRemoveSymbol at h
  split_ifs at h with hrl
  · rw [Prod.mk.injEq] at h
    exact h.1.symm
  · rcases s with _ | r
    · dsimp only at h
      rw [Prod.mk.injEq] at h
      exact h.1.symm
    · dsimp only at h
      rcases hm : removeSymbolGame r.game (lookupRole r.members c) index now with e2 | g2
      · rw [hm] at h
        dsimp only at h
        rw [Prod.mk.injEq] at h
        exact h.1.symm
      · rw [hm] at h
        dsimp only at h
        rw [Prod.mk.injEq] at h
        exact absurd h.2 (by simp)

lemma lookupRole_append {m : List (Nat × Role)} {c : Nat} (ρ : Role)
    (h : lookupRole m c = none) : lookupRole (m ++ [(c, ρ)]) c = some ρ := by
  unfold lookupRole at h ⊢
  have hm : m.find? (fun e => e.1 == c) = none := by
    rcases hf : m.find? (fun e => e.1 == c) with _ | e2
    · exact hf
    · rw [hf] at h
      exact Option.noConfusion h
  rw [List.find?_append, hm, List.find?_cons_of_pos _ (by simp)]
  rfl

lemma lookupS_append {m : List (Nat × Player)} {c : Nat} (p : Player)
    (h : lookupS m c = none) : lookupS (m ++ [(c, p)]) c = some p := by
  unfold lookupS at h ⊢
  have hm : m.find? (fun e => e.1 == c) = none := by
    rcases hf : m.find? (fun e => e.1 == c) with _ | e2
    · exact hf
    · rw [hf] at h
      exact Option.noConfusion h
  rw [List.find?_append, hm, List.find?_cons_of_pos _ (by simp)]
  rfl

lemma freshRole_count {roles : List Role}
    (hx : roles.count Role.rx ≤ 1) (ho : roles.count Role.ro ≤ 1) :
    (roles ++ [freshRole roles]).count Role.rx ≤ 1 ∧
    (roles ++ [freshRole roles]).count Role.ro ≤ 1 := by
  rw [List.count_append, List.count_append]
  by_cases h1 : roles.contains Role.rx = true
  · by_cases h2 : roles.contains Role.ro = true
    · have hfr : freshRole roles = Role.spectator := by
        unfold freshRole
        rw [if_neg (not_not_intro h1), if_neg (not_not_intro h2)]
      rw [hfr]
      have e1 : List.count Role.rx [Role.spectator] = 0 := by decide
      have e2 : List.count Role.ro [Role.spectator] = 0 := by decide
      exact ⟨by omega, by omega⟩
    · have hfr : freshRole roles = Role.ro := by
        unfold freshRole
        rw [if_neg (not_not_intro h1), if_pos h2]
      have hz : roles.count Role.ro = 0 := by
        rw [List.count_eq_zero]
        intro hm
        exact h2 (List.elem_iff.mpr hm)
      rw [hfr]
      have e1 : List.count Role.rx [Role.ro] = 0 := by decide
      have e2 : List.count Role.ro [Role.ro] = 1 := by decide
      exact ⟨by omega, by omega⟩
  · have hfr : freshRole roles = Role.rx := by
      unfold freshRole
      rw [if_pos h1]
    have hz : roles.count Role.rx = 0 := by
      rw [List.count_eq_zero]
      intro hm
      exact h1 (List.elem_iff.mpr hm)
    rw [hfr]
    have e1 : List.count Role.rx [Role.rx] = 1 := by decide
    have e2 : List.count Role.ro [Role.rx] = 0 := by decide
    exact ⟨by omega, by omega⟩

lemma hreach_roles {s : Option HRoom} (h : HRoomReach s) : roomRoles s := by
  induction h with
  | init => trivial
  | join s c now hr ih =>
    show roomRoles (some (handleJoin s c now).1)
    rcases s with _ | r
    · have hm : (handleJoin none c now).1.members = [(c, Role.rx)] := rfl
      refine ⟨?_, ?_⟩ <;> rw [hm] <;> simp
    · simp only [handleJoin, Option.getD_some]
      rcases hlk : lookupRole r.members c with _ | ρ
      · dsimp only
        have := freshRole_count ih.1 ih.2
        refine ⟨?_, ?_⟩
        · rw [List.map_append]
          exact this.1
        · rw [List.map_append]
          exact this.2
      · exact ih
  | mv s c index now rl hr ih =>
    show roomRoles (handleMakeMove s c index now rl).1
    unfold handleMakeMove
    by_cases hrl : rl = false
    · rw [if_pos hrl]
      exact ih
    · rw [if_neg hrl]
      rcases s with _ | r
      · trivial
      · rcases hm : makeMoveGame r.game (lookupRole r.members c) index now with e | g2
        · dsimp only
          rw [hm]
          exact ih
        · dsimp only
          rw [hm]
          exact ih
  | rm s c index now rl hr ih =>
    show roomRoles (handleRemoveSymbol s c index now rl).1
    unfold handleRemoveSymbol
    by_cases hrl : rl = false
    · rw [if_pos hrl]
      exact ih
    · rw [if_neg hrl]
      rcases s with _ | r
      · trivial
      · rcases hm : removeSymbolGame r.game (lookupRole r.members c) index now with e | g2
        · dsimp only
          rw [hm]
          exact ih
        · dsimp only
          rw [hm]
          exact ih
  | again s c now hr ih =>
    show roomRoles (handleRematch s c now).1
    rcases s with _ | r
    · trivial
    · unfold handleRematch
      dsimp only
      rcases hlk : lookupRole r.members c with _ | ρ
      · exact ih
      · rcases ρ with _ | _ | _
        · exact ih
        · exact ih
        · exact ih
  | leave s c hr ih =>
    show roomRoles (handleDisconnect s c)
    rcases s with _ | r
    · trivial
    · simp only [handleDisconnect]
      rcases hlk : lookupRole r.members c with _ | ρ
      · exact ih
      · dsimp only
        split
        · trivial
        · have hsub : ((r.members.filter (fun e => e.1 ≠ c)).map (·.2)).Sublist
              (r.members.map (·.2)) :=
            List.Sublist.map _ (List.filter_sublist _)
          have hx := le_trans (hsub.count_le Role.rx) ih.1
          have ho := le_trans (hsub.count_le Role.ro) ih.2
          split
          · exact ⟨hx, ho⟩
          · exact ⟨hx, ho⟩
  | fire s hr ih =>
    show roomRoles (fireMoveTimer s)
    rcases s with _ | r
    · trivial
    · unfold fireMoveTimer
      dsimp only
      split
      · exact ih
      · exact ih

lemma wt2v_reach : HRoomReach (some wt2v) :=
  HRoomReach.join wt1 2 100 (HRoomReach.join none 1 100 HRoomReach.init)

lemma wt6_reach : HRoomReach wt6 :=
  HRoomReach.mv wt5 2 4 104 true (HRoomReach.mv wt4 1 1 103 true
    (HRoomReach.mv wt3 2 3 102 true (HRoomReach.mv wt2 1 0 101 true wt2v_reach)))

lemma wt7_reach : HRoomReach wt7 := HRoomReach.mv wt6 1 2 105 true wt6_reach

lemma wt7v_reach : HRoomReach (some wt7v) := by
  have h := wt7_reach
  rwa [show wt7 = some wt7v from by decide] at h

lemma wt8_reach : HRoomReach wt8 := HRoomReach.leave wt7 2 wt7_reach

lemma st7_reach : HRoomReach st7 :=
  HRoomReach.mv st6 1 3 105 true (HRoomReach.mv st5 2 7 104 true
    (HRoomReach.mv st4 1 1 103 true (HRoomReach.mv wt3 2 5 102 true
      (HRoomReach.mv wt2 1 0 101 true wt2v_reach))))

lemma rt3_reach : HRoomReach rt3 := HRoomReach.join wt2 3 106 wt2v_reach

lemma rt4_reach : HRoomReach rt4 := HRoomReach.leave rt3 2 rt3_reach

/-- Claim C1 (counterexample): from a reachable simple-variant state, an
accepted `undo` produces a state violating the board/moves invariants: X
places at 0, removes it, O places at 0, and `undo` re-places X's symbol,
leaving cell 0 recorded in both players' moves lists. -/
theorem c1_counterexample :
    SReach c1s3v ∧ undoS c1s3v = some c1s4v ∧
    ¬ ClaimInvCore c1s4v.board c1s4v.movesX c1s4v.movesO := by
  refine ⟨?_, by decide, by decide⟩
  exact SReach.place c1s2v Player.O 0 c1s3v
    (SReach.withdraw c1s1v Player.X 0 c1s2v
      (SReach.place initialSGame Player.X 0 c1s1v SReach.init (by decide))
      (by decide))
    (by decide)

/-- Claim C1 (amended): the board/moves consistency invariants — `board[i]`
non-empty iff `i` is in exactly one role's moves list, moves lengths plus
empty cells total 9, and the symbol cap — hold in every state reachable by
accepted placements, removals and resets in the simple variant, and in
every reachable room of the hardened variant; the accepted `undo` of the
simple variant is excluded because it can violate them. -/
theorem c1_amended :
    (∀ g : SGame, SReachNoUndo g → ClaimInvCore g.board g.movesX g.movesO) ∧
    (∀ r : HRoom, HRoomReach (some r) →
      ClaimInvCore r.game.board r.game.movesX r.game.movesO) := by
  constructor
  · intro g h
    exact good_imp_claim (sreach_nu_good h)
  · intro r h
    exact good_imp_claim (hreach_good h)

/-- Witness for C1's amended theorem at concrete reachable states. -/
theorem c1_amended_witness :
    ClaimInvCore initialSGame.board initialSGame.movesX initialSGame.movesO ∧
    ClaimInvCore (handleJoin none 1 0).1.game.board
      (handleJoin none 1 0).1.game.movesX (handleJoin none 1 0).1.game.movesO :=
  ⟨c1_amended.1 initialSGame SReachNoUndo.init,
   c1_amended.2 (handleJoin none 1 0).1 (HRoomReach.join none 1 0 HRoomReach.init)⟩

/-- Claim C4 (counterexample): in the simple variant, the third joiner of a
room is assigned `"O"`, so two connections hold role O at once. -/
theorem c4_counterexample :
    (joinAssignS (joinAssignS (joinAssignS [] 1).1 2).1 3).1 =
      [(1, Player.X), (2, Player.O), (3, Player.O)] ∧
    ((joinAssignS (joinAssignS (joinAssignS [] 1).1 2).1 3).1.map (·.2)).count
      Player.O = 2 :=
  ⟨by decide, by decide⟩

/-- Claim C4 (amended): in the hardened variant, every reachable room has
at most one member with role X and at most one with role O, and a new
joiner is assigned spectator whenever both roles are taken; in the simple
variant the property fails (every joiner after the first receives O). -/
theorem c4_amended :
    (∀ r : HRoom, HRoomReach (some r) →
      (r.members.map (·.2)).count Role.rx ≤ 1 ∧
      (r.members.map (·.2)).count Role.ro ≤ 1) ∧
    (∀ (r : HRoom) (c : Nat) (now : Int),
      lookupRole r.members c = none →
      (r.members.map (·.2)).contains Role.rx = true →
      (r.members.map (·.2)).contains Role.ro = true →
      (handleJoin (some r) c now).2 = Role.spectator) := by
  constructor
  · intro r h
    exact hreach_roles h
  · intro r c now hlk hx ho
    simp only [handleJoin, Option.getD_some]
    rw [hlk]
    dsimp only
    unfold freshRole
    rw [if_neg (not_not_intro hx), if_neg (not_not_intro ho)]

/-- Witness for C4's amended theorem at a concrete two-player room. -/
theorem c4_amended_witness :
    ((wt2v.members.map (·.2)).count Role.rx ≤ 1 ∧
     (wt2v.members.map (·.2)).count Role.ro ≤ 1) ∧
    (handleJoin (some wt2v) 3 106).2 = Role.spectator :=
  ⟨c4_amended.1 wt2v wt2v_reach,
   c4_amended.2 wt2v 3 106 (by decide) (by decide) (by decide)⟩

/-- Claim C9 (confirmed): `joinGame` is idempotent per connection in both
variants — a second join by the same connection returns the same role and
leaves the member map (and whole room) unchanged. -/
theorem c9_join_idempotent :
    (∀ (s : Option HRoom) (c : Nat) (now now2 : Int) (r1 : HRoom) (ρ1 : Role),
      handleJoin s c now = (r1, ρ1) → handleJoin (some r1) c now2 = (r1, ρ1)) ∧
    (∀ (m : List (Nat × Player)) (c : Nat) (m1 : List (Nat × Player)) (p1 : Player),
      joinAssignS m c = (m1, p1) → joinAssignS m1 c = (m1, p1)) := by
  constructor
  · intro s c now now2 r1 ρ1 h
    have key : lookupRole r1.members c = some ρ1 := by
      simp only [handleJoin] at h
      rcases hlk : lookupRole (s.getD ⟨createGame now, []⟩).members c with _ | ρ
      · rw [hlk] at h
        dsimp only at h
        rw [Prod.mk.injEq] at h
        obtain ⟨hr, hρ⟩ := h
        subst hr
        subst hρ
        dsimp only
        exact lookupRole_append _ hlk
      · rw [hlk] at h
        dsimp only at h
        rw [Prod.mk.injEq] at h
        obtain ⟨hr, hρ⟩ := h
        subst hr
        subst hρ
        exact hlk
    simp only [handleJoin, Option.getD_some, key]
  · intro m c m1 p1 h
    have key : lookupS m1 c = some p1 := by
      unfold joinAssignS at h
      rcases hlk : lookupS m c with _ | p
      · rw [hlk] at h
        dsimp only at h
        rw [Prod.mk.injEq] at h
        obtain ⟨hm, hp⟩ := h
        subst hm
        subst hp
        exact lookupS_append _ hlk
      · rw [hlk] at h
        dsimp only at h
        rw [Prod.mk.injEq] at h
        obtain ⟨hm, hp⟩ := h
        subst hm
        subst hp
        exact hlk
    unfold joinAssignS
    rw [key]

/-- Witness for C9 at concrete rooms in both variants. -/
theorem c9_join_idempotent_witness :
    handleJoin (some wt2v) 2 300 = (wt2v, Role.ro) ∧
    joinAssignS [(1, Player.X)] 1 = ([(1, Player.X)], Player.X) :=
  ⟨c9_join_idempotent.1 wt1 2 100 300 wt2v Role.ro (by decide),
   c9_join_idempotent.2 [] 1 [(1, Player.X)] Player.X (by decide)⟩

/-- Claim C2 (counterexample): in the hardened variant, the accepted
placement that wins the game does not toggle `currentPlayer`: X completes
the 0-1-2 row and remains the current player. -/
theorem c2_counterexample :
    HRoomReach wt6 ∧
    wt6.map (fun r => r.game.currentPlayer) = some Player.X ∧
    (handleMakeMove wt6 1 2 105 true).2 = none ∧
    (handleMakeMove wt6 1 2 105 true).1.map (fun r => r.game.currentPlayer) =
      some Player.X ∧
    (handleMakeMove wt6 1 2 105 true).1.map (fun r => r.game.winner) =
      some (some (GWinner.player Player.X)) :=
  ⟨wt6_reach, by decide, by decide, by decide, by decide⟩

/-- Claim C2 (amended): in the hardened variant, an accepted placement that
leaves the game playing toggles `currentPlayer` exactly once and an
accepted removal always toggles it; an accepted placement that finishes
the game leaves `currentPlayer` unchanged; every rejected placement or
removal leaves the room unchanged; in the simple variant an accepted
placement toggles `currentPlayer` while an accepted removal leaves it
unchanged. -/
theorem c2_amended :
    (∀ (g : HGame) (role : Option Role) (i t : Int) (g2 : HGame),
      makeMoveGame g role i t = .ok g2 →
        (g2.gameStatus = .playing → g2.currentPlayer = other g.currentPlayer) ∧
        (g2.gameStatus = .finished → g2.currentPlayer = g.currentPlayer)) ∧
    (∀ (g : HGame) (role : Option Role) (i t : Int) (g2 : HGame),
      removeSymbolGame g role i t = .ok g2 →
        g2.currentPlayer = other g.currentPlayer) ∧
    (∀ (s s2 : Option HRoom) (c : Nat) (i t : Int) (rl : Bool) (e : MoveError),
      handleMakeMove s c i t rl = (s2, some e) → s2 = s) ∧
    (∀ (s s2 : Option HRoom) (c : Nat) (i t : Int) (rl : Bool) (e : MoveError),
      handleRemoveSymbol s c i t rl = (s2, some e) → s2 = s) ∧
    (∀ (g : SGame) (p : Player) (i : Int) (g2 : SGame),
      makeMoveS g p i = some g2 → g2.currentPlayer = other g.currentPlayer) ∧
    (∀ (g : SGame) (p : Player) (i : Int) (g2 : SGame),
      removeSymbolS g p i = some g2 → g2.currentPlayer = g.currentPlayer) := by
  refine ⟨?_, ?_, ?_, ?_, ?_, ?_⟩
  · intro g role i t g2 h
    obtain ⟨ρ, p, -, -, -, hpc, -, -, -, -, hres⟩ := makeMoveGame_ok h
    rcases hres with ⟨-, hcp, hst, -⟩ | ⟨w, line, -, hcp, hst, -⟩
    · constructor
      · intro _
        rw [hcp, hpc]
      · intro hf
        rw [hst] at hf
        exact absurd hf (by simp)
    · constructor
      · intro hp2
        rw [hst] at hp2
        exact absurd hp2 (by simp)
      · intro _
        exact hcp
  · intro g role i t g2 h
    obtain ⟨ρ, p, -, -, -, hpc, -, hcp, -, -⟩ := removeSymbolGame_ok h
    rw [hcp, hpc]
  · intro s s2 c i t rl e h
    exact handleMakeMove_error h
  · intro s s2 c i t rl e h
    exact handleRemoveSymbol_error h
  · intro g p i g2 h
    unfold makeMoveS at h
    split_ifs at h with h1 h2 h3
    simp only [Option.some.injEq] at h
    subst h
    rw [not_not.mp h1]
  · intro g p i g2 h
    unfold removeSymbolS at h
    split_ifs at h with h1
    simp only [Option.some.injEq] at h
    subst h
    cases p
    · rfl
    · rfl

/-- Witness for C2's amended theorem: a concrete accepted non-winning
placement toggles the player, a concrete accepted simple-variant removal
does not. -/
theorem c2_amended_witness :
    makeMoveGame wt2v.game (some Role.rx) 0 101 = .ok c2wg ∧
    c2wg.currentPlayer = other wt2v.game.currentPlayer ∧
    removeSymbolS c1s1v Player.X 0 = some c1s2v ∧
    c1s2v.currentPlayer = c1s1v.currentPlayer :=
  ⟨by decide,
   (c2_amended.1 wt2v.game (some Role.rx) 0 101 c2wg (by decide)).1 (by decide),
   by decide,
   c2_amended.2.2.2.2.2 c1s1v Player.X 0 c1s2v (by decide)⟩

/-- Claim C3 (counterexample): after X wins, the active player O
disconnects from a room that still has a member; the handler sets the game
back to `"waiting"` while `winner` remains X, so `status == finished ⟺
winner != none` fails in a reachable state. -/
theorem c3_counterexample :
    HRoomReach wt8 ∧
    wt8.map (fun r => r.game.gameStatus) = some Status.waiting ∧
    wt8.map (fun r => r.game.winner) = some (some (GWinner.player Player.X)) :=
  ⟨wt8_reach, by decide, by decide⟩

/-- Claim C3 (amended): in every reachable room of the hardened variant,
`status == finished` implies `winner != none`; the converse direction of
the specified equivalence fails (see the counterexample: a post-game
disconnect leaves the winner set with status waiting). -/
theorem c3_amended (r : HRoom) (h : HRoomReach (some r))
    (hfin : r.game.gameStatus = .finished) : r.game.winner ≠ none :=
  hreach_fw h hfin

/-- Witness for C3's amended theorem at the concrete finished room. -/
theorem c3_amended_witness : wt7v.game.winner ≠ none :=
  c3_amended wt7v wt7v_reach (by decide)

/-- Claim C5 (counterexample): X holds the maximum three symbols but it is
O's turn; X's placement attempt is rejected with `NotYourTurn`, not
`SymbolCapReached`, because the turn check precedes the cap check (state
still unchanged). -/
theorem c5_counterexample :
    HRoomReach st7 ∧
    st7.map (fun r => (hmoves r.game Player.X).length) = some 3 ∧
    st7.map (fun r => r.game.currentPlayer) = some Player.O ∧
    handleMakeMove st7 1 6 106 true = (st7, some MoveError.NotYourTurn) :=
  ⟨st7_reach, by decide, by decide, by decide⟩

/-- Claim C5 (amended): when the game is playing and it is the at-cap
role's turn, the placement is rejected with `SymbolCapReached` regardless
of the index argument (so regardless of index validity or cell
occupancy); when it is not that role's turn, the rejection is
`NotYourTurn` instead.  Rejections leave the room unchanged (see
`c2_amended`-style error conjunct below). -/
theorem c5_amended (g : HGame) (ρ : Role) (p : Player) (i t : Int)
    (hρ : ρ.player = some p) (hs : g.gameStatus = .playing)
    (hcap : MAX_SYMBOLS ≤ (hmoves g p).length) :
    (p = g.currentPlayer → makeMoveGame g (some ρ) i t = .error .SymbolCapReached) ∧
    (p ≠ g.currentPlayer → makeMoveGame g (some ρ) i t = .error .NotYourTurn) ∧
    (∀ (s s2 : Option HRoom) (c : Nat) (rl : Bool) (e : MoveError),
      handleMakeMove s c i t rl = (s2, some e) → s2 = s) := by
  refine ⟨?_, ?_, ?_⟩
  · intro hturn
    rcases ρ with _ | _ | _
    · have hp : Player.X = p := Option.some.inj hρ
      subst hp
      unfold makeMoveGame
      dsimp only [Role.player]
      rw [if_neg (not_not_intro hs), if_neg (not_not_intro hturn), if_pos hcap]
    · have hp : Player.O = p := Option.some.inj hρ
      subst hp
      unfold makeMoveGame
      dsimp only [Role.player]
      rw [if_neg (not_not_intro hs), if_neg (not_not_intro hturn), if_pos hcap]
    · exact Option.noConfusion hρ
  · intro hturn
    rcases ρ with _ | _ | _
    · have hp : Player.X = p := Option.some.inj hρ
      subst hp
      unfold makeMoveGame
      dsimp only [Role.player]
      rw [if_neg (not_not_intro hs), if_pos hturn]
    · have hp : Player.O = p := Option.some.inj hρ
      subst hp
      unfold makeMoveGame
      dsimp only [Role.player]
      rw [if_neg (not_not_intro hs), if_pos hturn]
    · exact Option.noConfusion hρ
  · intro s s2 c rl e h
    exact handleMakeMove_error h

/-- Witness for C5's amended theorem: a concrete at-cap in-turn rejection
with `SymbolCapReached` and a concrete at-cap out-of-turn rejection with
`NotYourTurn`. -/
theorem c5_amended_witness :
    makeMoveGame st8v.game (some Role.rx) 4 200 = .error .SymbolCapReached ∧
    makeMoveGame st7v.game (some Role.rx) 6 106 = .error .NotYourTurn :=
  ⟨(c5_amended st8v.game Role.rx Player.X 4 200 (by decide) (by decide)
      (by decide)).1 (by decide),
   (c5_amended st7v.game Role.rx Player.X 6 106 (by decide) (by decide)
      (by decide)).2.1 (by decide)⟩

/-- Claim C6 (confirmed): when the move timer fires it acts on the live
game fetched at firing time: if that game is still playing, the non
current player wins by forfeit — status becomes finished, the winner is
recorded and exactly that player's score is incremented by one; if the
game is missing or no longer playing, the state is left unchanged. -/
theorem c6_timeout_forfeit (r : HRoom) :
    (r.game.gameStatus = .playing →
      fireMoveTimer (some r) = some ⟨{ r.game with
          winner := some (.player (other r.game.currentPlayer))
          gameStatus := .finished
          scores := bumpScore r.game.scores (other r.game.currentPlayer) },
        r.members⟩ ∧
      scoreOf (bumpScore r.game.scores (other r.game.currentPlayer))
          (other r.game.currentPlayer) =
        scoreOf r.game.scores (other r.game.currentPlayer) + 1 ∧
      scoreOf (bumpScore r.game.scores (other r.game.currentPlayer))
          r.game.currentPlayer =
        scoreOf r.game.scores r.game.currentPlayer ∧
      (bumpScore r.game.scores (other r.game.currentPlayer)).draws =
        r.game.scores.draws) ∧
    (r.game.gameStatus ≠ .playing → fireMoveTimer (some r) = some r) ∧
    fireMoveTimer none = none := by
  refine ⟨?_, ?_, rfl⟩
  · intro hp
    refine ⟨?_, ?_, ?_, ?_⟩
    · unfold fireMoveTimer
      dsimp only
      rw [if_neg (not_not_intro hp)]
    · cases r.game.currentPlayer <;> rfl
    · cases r.game.currentPlayer <;> rfl
    · cases r.game.currentPlayer <;> rfl
  · intro hnp
    unfold fireMoveTimer
    dsimp only
    rw [if_pos hnp]

/-- Witness for C6 at the concrete freshly started two-player room. -/
theorem c6_timeout_forfeit_witness :
    wt2v.game.gameStatus = Status.playing ∧
    fireMoveTimer (some wt2v) = some ⟨{ wt2v.game with
        winner := some (.player (other wt2v.game.currentPlayer))
        gameStatus := .finished
        scores := bumpScore wt2v.game.scores (other wt2v.game.currentPlayer) },
      wt2v.members⟩ :=
  ⟨by decide, ((c6_timeout_forfeit wt2v).1 (by decide)).1⟩

/-- Claim C7 (counterexample): a rematch requested by the sole remaining
active player is accepted and sets the new game playing although only one
non-spectator member exists, refuting the claimed equivalence with
"exactly two non-spectator members". -/
theorem c7_counterexample :
    HRoomReach rt4 ∧
    rt4.map (fun r => nonSpectatorCount r.members) = some 1 ∧
    (handleRematch rt4 1 200).2 = true ∧
    (handleRematch rt4 1 200).1.map (fun r => r.game.gameStatus) =
      some Status.playing ∧
    (handleRematch rt4 1 200).1.map (fun r => nonSpectatorCount r.members) =
      some 1 :=
  ⟨rt4_reach, by decide, by decide, by decide, by decide⟩

/-- Claim C7 (amended): an accepted rematch (requester is a known non
spectator member) replaces the game by a fresh `createGame` whose scores
are copied from the old game, with empty board and moves lists, no winner,
and status playing unconditionally — regardless of how many non-spectator
members are present. -/
theorem c7_amended (r : HRoom) (c : Nat) (now : Int) (ρ : Role)
    (hρ : lookupRole r.members c = some ρ) (hns : ρ ≠ Role.spectator) :
    handleRematch (some r) c now =
      (some ⟨{ createGame now with scores := r.game.scores
                                   gameStatus := .playing
                                   turnStartTime := some now }, r.members⟩,
       true) ∧
    (handleRematch (some r) c now).1.map (fun r2 => r2.game.scores) =
      some r.game.scores ∧
    (handleRematch (some r) c now).1.map (fun r2 => r2.game.board) =
      some (List.replicate 9 Cell.empty) ∧
    (handleRematch (some r) c now).1.map (fun r2 => r2.game.movesX) = some [] ∧
    (handleRematch (some r) c now).1.map (fun r2 => r2.game.movesO) = some [] ∧
    (handleRematch (some r) c now).1.map (fun r2 => r2.game.winner) = some none ∧
    (handleRematch (some r) c now).1.map (fun r2 => r2.game.gameStatus) =
      some Status.playing := by
  have heq : handleRematch (some r) c now =
      (some ⟨{ createGame now with scores := r.game.scores
                                   gameStatus := .playing
                                   turnStartTime := some now }, r.members⟩,
       true) := by
    unfold handleRematch
    dsimp only
    rw [hρ]
    rcases ρ with _ | _ | _
    · rfl
    · rfl
    · exact absurd rfl hns
  refine ⟨heq, ?_, ?_, ?_, ?_, ?_, ?_⟩ <;> (rw [heq]; rfl)

/-- Witness for C7's amended theorem at the one-active-player room. -/
theorem c7_amended_witness :
    handleRematch (some rt4v) 1 200 =
      (some ⟨{ createGame 200 with scores := rt4v.game.scores
                                   gameStatus := .playing
                                   turnStartTime := some 200 }, rt4v.members⟩,
       true) :=
  (c7_amended rt4v 1 200 Role.rx (by decide) (by decide)).1

/-- Claim C8 (confirmed): for one connection, six actions inside one
rate-limit window give five allowed verdicts and a sixth rejection (the
`maxActionsPerWindow + 1`-th action is not allowed), and the first action
strictly after the window's reset time is allowed again with the counter
restarted at 1. -/
theorem c8_rate_limit (t0 t1 t2 t3 t4 t5 t6 : Int)
    (h1 : t1 ≤ t0 + RATE_WINDOW) (h2 : t2 ≤ t0 + RATE_WINDOW)
    (h3 : t3 ≤ t0 + RATE_WINDOW) (h4 : t4 ≤ t0 + RATE_WINDOW)
    (h5 : t5 ≤ t0 + RATE_WINDOW) (h6 : t0 + RATE_WINDOW < t6) :
    (runRateLimit none [t0, t1, t2, t3, t4, t5]).1 =
      [true, true, true, true, true, false] ∧
    (runRateLimit none [t0, t1, t2, t3, t4, t5, t6]).1 =
      [true, true, true, true, true, false, true] ∧
    (runRateLimit none [t0, t1, t2, t3, t4, t5, t6]).2 =
      some ⟨1, t6 + RATE_WINDOW⟩ := by
  have s0 : checkRateLimit t0 none = (true, ⟨1, t0 + RATE_WINDOW⟩) := by
    unfold checkRateLimit
    simp only [Option.getD_some, Option.getD_none]
    rw [if_neg (show ¬ (t0 + RATE_WINDOW < t0) from by unfold RATE_WINDOW; omega)]
    rfl
  have s1 : checkRateLimit t1 (some ⟨1, t0 + RATE_WINDOW⟩) =
      (true, ⟨2, t0 + RATE_WINDOW⟩) := by
    unfold checkRateLimit
    simp only [Option.getD_some, Option.getD_none]
    rw [if_neg (show ¬ (t0 + RATE_WINDOW < t1) from by omega)]
    rfl
  have s2 : checkRateLimit t2 (some ⟨2, t0 + RATE_WINDOW⟩) =
      (true, ⟨3, t0 + RATE_WINDOW⟩) := by
    unfold checkRateLimit
    simp only [Option.getD_some, Option.getD_none]
    rw [if_neg (show ¬ (t0 + RATE_WINDOW < t2) from by omega)]
    rfl
  have s3 : checkRateLimit t3 (some ⟨3, t0 + RATE_WINDOW⟩) =
      (true, ⟨4, t0 + RATE_WINDOW⟩) := by
    unfold checkRateLimit
    simp only [Option.getD_some, Option.getD_none]
    rw [if_neg (show ¬ (t0 + RATE_WINDOW < t3) from by omega)]
    rfl
  have s4 : checkRateLimit t4 (some ⟨4, t0 + RATE_WINDOW⟩) =
      (true, ⟨5, t0 + RATE_WINDOW⟩) := by
    unfold checkRateLimit
    simp only [Option.getD_some, Option.getD_none]
    rw [if_neg (show ¬ (t0 + RATE_WINDOW < t4) from by omega)]
    rfl
  have s5 : checkRateLimit t5 (some ⟨5, t0 + RATE_WINDOW⟩) =
      (false, ⟨6, t0 + RATE_WINDOW⟩) := by
    unfold checkRateLimit
    simp only [Option.getD_some, Option.getD_none]
    rw [if_neg (show ¬ (t0 + RATE_WINDOW < t5) from by omega)]
    rfl
  have s6 : checkRateLimit t6 (some ⟨6, t0 + RATE_WINDOW⟩) =
      (true, ⟨1, t6 + RATE_WINDOW⟩) := by
    unfold checkRateLimit
    simp only [Option.getD_some, Option.getD_none]
    rw [if_pos (show t0 + RATE_WINDOW < t6 from by omega)]
    rfl
  refine ⟨?_, ?_, ?_⟩ <;>
    simp only [runRateLimit, s0, s1, s2, s3, s4, s5, s6]

/-- Witness for C8 at concrete times: six actions at time 0, one at 2000. -/
theorem c8_rate_limit_witness :
    (runRateLimit none [0, 0, 0, 0, 0, 0]).1 =
      [true, true, true, true, true, false] ∧
    (runRateLimit none [0, 0, 0, 0, 0, 0, 2000]).1 =
      [true, true, true, true, true, false, true] ∧
    (runRateLimit none [0, 0, 0, 0, 0, 0, 2000]).2 =
      some ⟨1, 2000 + RATE_WINDOW⟩ :=
  c8_rate_limit 0 0 0 0 0 0 2000 (by decide) (by decide) (by decide) (by decide)
    (by decide) (by decide)

/-- Claim C10 (confirmed): in the hardened variant, a `removeSymbol`
request with an index outside `[0, 8]` reads `undefined` from the board
(`jsGet` is `none`), so it can never equal the requester's symbol: the
request is rejected and the room is unchanged even though the removal path
has no explicit bounds check; when the earlier validations (role, status,
turn) pass, the rejection is `CannotRemoveForeignSymbol`. -/
theorem c10_remove_out_of_range (r : HRoom) (c : Nat) (i t : Int) (rl : Bool)
    (hreach : HRoomReach (some r)) (hi : i < 0 ∨ 8 < i) :
    jsGet r.game.board i = none ∧
    (handleRemoveSymbol (some r) c i t rl).1 = some r ∧
    (∀ (ρ : Role) (p : Player), ρ.player = some p →
      r.game.gameStatus = .playing → p = r.game.currentPlayer →
      removeSymbolGame r.game (some ρ) i t = .error .CannotRemoveForeignSymbol) := by
  have hlen : r.game.board.length = 9 := (hreach_good hreach).1
  have hnone : jsGet r.game.board i = none := by
    unfold jsGet
    rcases hi with hi | hi
    · rw [if_neg (by omega)]
    · rw [if_pos (by omega)]
      rw [List.getElem?_eq_none]
      omega
  refine ⟨hnone, ?_, ?_⟩
  · unfold handleRemoveSymbol
    by_cases hrl : rl = false
    · rw [if_pos hrl]
    · rw [if_neg hrl]
      dsimp only
      rcases hm : removeSymbolGame r.game (lookupRole r.members c) i t with e | g2
      · rfl
      · obtain ⟨ρ, p, -, -, -, -, hget, -⟩ := removeSymbolGame_ok hm
        rw [hnone] at hget
        exact Option.noConfusion hget
  · intro ρ p hρ hs hturn
    rcases ρ with _ | _ | _
    · have hp : Player.X = p := Option.some.inj hρ
      subst hp
      unfold removeSymbolGame
      dsimp only [Role.player]
      rw [if_neg (not_not_intro hs), if_neg (not_not_intro hturn),
        if_pos (by rw [hnone]; simp)]
    · have hp : Player.O = p := Option.some.inj hρ
      subst hp
      unfold removeSymbolGame
      dsimp only [Role.player]
      rw [if_neg (not_not_intro hs), if_neg (not_not_intro hturn),
        if_pos (by rw [hnone]; simp)]
    · exact Option.noConfusion hρ

/-- Witness for C10 at the concrete playing room with index 9. -/
theorem c10_remove_out_of_range_witness :
    (handleRemoveSymbol (some wt2v) 1 9 200 true).1 = some wt2v ∧
    removeSymbolGame wt2v.game (some Role.rx) 9 200 =
      .error .CannotRemoveForeignSymbol :=
  ⟨(c10_remove_out_of_range wt2v 1 9 200 true wt2v_reach (by decide)).2.1,
   (c10_remove_out_of_range wt2v 1 9 200 true wt2v_reach (by decide)).2.2
     Role.rx Player.X (by decide) (by decide) (by decide)⟩
